/-
Verification of the MEF/RES binary codecs of the model-essence-viewer
repository, shallowly embedded in Lean 4.

Byte buffers are lists of naturals (each element a byte value); 32-bit
floats are carried as their 32-bit little-endian bit patterns, since the
codecs only copy float bytes and never compute with them.
-/
import Mathlib

namespace MEV

/-- A byte buffer: the contents of a JS `ArrayBuffer`, one natural per byte. -/
abbrev Buf := List Nat

/-- `buf[i]`, with the JS `DataView` convention that we only ever use it
in-bounds; out-of-range defaults to 0 (never observed by the model because
every modelled read is bounds-checked first where the source checks). -/
def byteAt (b : Buf) (i : Nat) : Nat := b.getD i 0

/-- Little-endian unchecked 32-bit read (`DataView.getUint32(i, true)`). -/
def rdU32 (b : Buf) (i : Nat) : Nat :=
  byteAt b i + 256 * byteAt b (i+1) + 65536 * byteAt b (i+2) +
    16777216 * byteAt b (i+3)

/-- Little-endian unchecked 16-bit read (`DataView.getUint16(i, true)`). -/
def rdU16 (b : Buf) (i : Nat) : Nat := byteAt b i + 256 * byteAt b (i+1)

/-- Reinterpret a 32-bit word as a signed two's-complement integer
(`DataView.getInt32`). -/
def toI32 (w : Nat) : Int :=
  if w % 4294967296 < 2147483648 then ((w % 4294967296 : Nat) : Int)
  else ((w % 4294967296 : Nat) : Int) - 4294967296

/-- Bounds-checked 32-bit read: JS `DataView` throws a `RangeError` when
`i + 4 > byteLength`; the model returns `none` there. -/
def rdU32? (b : Buf) (i : Nat) : Option Nat :=
  if i + 4 ≤ b.length then some (rdU32 b i) else none

/-- Bounds-checked signed 32-bit read (`MEFParser.readInt`). -/
def rdI32? (b : Buf) (i : Nat) : Option Int := (rdU32? b i).map toI32

/-- Bounds-checked 16-bit read (`MEFParser.readUint16`). -/
def rdU16? (b : Buf) (i : Nat) : Option Nat :=
  if i + 2 ≤ b.length then some (rdU16 b i) else none

/-- Little-endian bytes of a 16-bit store (`DataView.setUint16`). -/
def le16 (v : Nat) : Buf := [v % 256, v / 256 % 256]

/-- Little-endian bytes of a 32-bit store (`DataView.setUint32` /
`setInt32`, which agree byte-for-byte for nonnegative values mod 2^32). -/
def le32 (v : Nat) : Buf :=
  [v % 256, v / 256 % 256, v / 65536 % 256, v / 16777216 % 256]

/-- `k` zero bytes (fresh `ArrayBuffer` contents / alignment padding). -/
def zeros (k : Nat) : Buf := List.replicate k 0

-- Basic facts about the byte primitives.

theorem le32_length (v : Nat) : (le32 v).length = 4 := rfl

theorem le16_length (v : Nat) : (le16 v).length = 2 := rfl

theorem zeros_length (k : Nat) : (zeros k).length = k := List.length_replicate ..

theorem byteAt_drop (b : Buf) (o i : Nat) : byteAt (b.drop o) i = byteAt b (o + i) := by
  simp [byteAt, List.getD, List.getElem?_drop]

theorem rdU32_drop (b : Buf) (o i : Nat) : rdU32 (b.drop o) i = rdU32 b (o + i) := by
  simp [rdU32, byteAt_drop, Nat.add_assoc]

theorem rdU16_drop (b : Buf) (o i : Nat) : rdU16 (b.drop o) i = rdU16 b (o + i) := by
  simp [rdU16, byteAt_drop, Nat.add_assoc]

theorem rdU32_le32 (v : Nat) (r : Buf) : rdU32 (le32 v ++ r) 0 = v % 4294967296 := by
  simp [rdU32, le32, byteAt, List.getD]
  omega

theorem rdU16_le16 (v : Nat) (r : Buf) : rdU16 (le16 v ++ r) 0 = v % 65536 := by
  simp [rdU16, le16, byteAt, List.getD]
  omega

theorem drop_app (a b : Buf) : (a ++ b).drop a.length = b := List.drop_left a b

theorem drop_le32 (v : Nat) (r : Buf) : (le32 v ++ r).drop 4 = r := rfl

theorem take_app (a b : Buf) : (a ++ b).take a.length = a := List.take_left a b

/-! ## VertexFormatDetector (`MEFParser.detectVertexFormat`) -/

/-- One entry of the detector's candidate table: stride and format label. -/
def vertexFormats : List (Int × String) :=
  [(32, "rigid_full"), (24, "pos_normal"), (20, "lightmap"),
   (16, "pos_uv_basic"), (12, "position_only")]

/-- The validity test of the source's candidate loop: positive stride that
divides the chunk size with a quotient in (0, 2000000). -/
def fmtValid (chunkSize : Int) (s : Int) : Bool :=
  0 < s && chunkSize % s == 0 && (0 < chunkSize / s && chunkSize / s < 2000000)

/-- Result record of `detectVertexFormat`. -/
structure FormatInfo where
  stride : Int
  vertexCount : Int
  format : String
deriving Repr, DecidableEq

/-- `MEFParser.detectVertexFormat`: collect the valid candidates in table
order and return the first, or `null` when none qualifies. -/
def detectVertexFormat (chunkSize : Int) : Option FormatInfo :=
  match (vertexFormats.filter fun f => fmtValid chunkSize f.1).head? with
  | some f => some ⟨f.1, chunkSize / f.1, f.2⟩
  | none => none

/-- The spec's selection rule, written from its words: the first stride in
the priority order 32, 24, 20, 16, 12 that divides the payload length with
a quotient strictly between 0 and 2,000,000, paired with that quotient. -/
def specStrideRule (byteLength : Int) : Option (Int × Int) :=
  (([32, 24, 20, 16, 12] : List Int).find? fun s =>
      byteLength % s == 0 && (0 < byteLength / s && byteLength / s < 2000000)).map
    fun s => (s, byteLength / s)

theorem head?_filter_eq_find? {α : Type} (p : α → Bool) (l : List α) :
    (l.filter p).head? = l.find? p := by
  induction l with
  | nil => rfl
  | cons a t ih =>
    by_cases h : p a <;> simp [List.filter_cons, List.find?_cons, h, ih]

theorem find?_congr_on {α : Type} (l : List α) (p q : α → Bool)
    (h : ∀ a ∈ l, p a = q a) : l.find? p = l.find? q := by
  induction l with
  | nil => rfl
  | cons a t ih =>
    have ha := h a (by simp)
    have ht : ∀ x ∈ t, p x = q x := fun x hx => h x (by simp [hx])
    by_cases hp : p a = true
    · rw [List.find?_cons_of_pos _ hp, List.find?_cons_of_pos _ (ha ▸ hp)]
    · have hq : ¬ q a = true := fun hqq => hp (by rw [ha]; exact hqq)
      rw [List.find?_cons_of_neg _ (by simpa using hp),
        List.find?_cons_of_neg _ (by simpa using hq), ih ht]

/-- C5 — `detectVertexFormat` is a pure function of the payload byte length
that returns the first stride in the priority order 32, 24, 20, 16, 12
dividing the length with a quotient in (0, 2000000), together with that
quotient as the vertex count, and `none` when no candidate qualifies;
in particular length 3200 gives stride 32 with 100 vertices. -/
theorem detectVertexFormat_follows_spec_rule (n : Int) :
    (detectVertexFormat n).map (fun f => (f.stride, f.vertexCount)) = specStrideRule n ∧
    detectVertexFormat 3200 = some ⟨32, 100, "rigid_full"⟩ := by
  constructor
  · unfold detectVertexFormat specStrideRule
    rw [head?_filter_eq_find?]
    have hmap : ([32, 24, 20, 16, 12] : List Int) = vertexFormats.map Prod.fst := by
      simp [vertexFormats]
    rw [hmap, List.find?_map]
    have hcongr :
        (vertexFormats.find? fun f => fmtValid n f.1) =
          vertexFormats.find?
            ((fun s => n % s == 0 && (0 < n / s && n / s < 2000000)) ∘ Prod.fst) := by
      apply find?_congr_on
      intro a ha
      have h1 : (0 : Int) < a.1 := by
        simp only [vertexFormats, List.mem_cons, List.not_mem_nil, or_false] at ha
        rcases ha with h | h | h | h | h <;> simp [h]
      simp [fmtValid, Function.comp, h1]
    rw [hcongr]
    cases vertexFormats.find?
        ((fun s => n % s == 0 && (0 < n / s && n / s < 2000000)) ∘ Prod.fst) <;> simp
  · decide

/-! ## ChunkContainerCodec decode: the chunk walk of `MEFParser.parse` -/

/-- One decoded chunk record (`MEFChunk` in the source): the 4 name bytes,
the absolute header offset, and the declared size and next fields as read
by the signed `readInt`. -/
structure MEFChunk where
  name : Buf
  offset : Nat
  size : Int
  next : Int
deriving Repr, DecidableEq

/-- How a fueled run of the walk can stop abnormally: `fuelOut` when the
iteration budget is exhausted while the loop condition still holds (the
source loop would keep running), `oob` if a header read were attempted past
the buffer (never happens; see `chunkWalk` and the C2 theorem). -/
inductive WalkStop
  | fuelOut
  | oob
deriving Repr, DecidableEq

/-- The chunk-walk loop of `MEFParser.parse`: while
`offset < fileSize && offset < byteLength`, stop if a 16-byte header does
not fit, read `name`/`size`/`param`/`next`, record the chunk, stop on
`next == 0`, else `seek(next - 16)` relative (stop when that seek leaves
`[0, byteLength]`).  `fuel` bounds the number of loop iterations of the
model only; the source loop is unbounded and `next` may move the cursor
backwards, so it can revisit offsets forever. -/
def chunkWalk (b : Buf) (fileSize : Int) :
    Nat → Nat → List MEFChunk → Except WalkStop (List MEFChunk)
  | 0, off, acc =>
    if (off : Int) < fileSize ∧ off < b.length then .error .fuelOut else .ok acc.reverse
  | fuel + 1, off, acc =>
    if (off : Int) < fileSize ∧ off < b.length then
      if b.length < off + 16 then .ok acc.reverse
      else
        match rdI32? b (off + 4), rdI32? b (off + 8), rdI32? b (off + 12) with
        | some sz, some _, some nx =>
          let c : MEFChunk := ⟨(b.drop off).take 4, off, sz, nx⟩
          if nx = 0 then .ok (c :: acc).reverse
          else
            let newOff : Int := (off : Int) + 16 + (nx - 16)
            if newOff < 0 ∨ (b.length : Int) < newOff then .ok (c :: acc).reverse
            else chunkWalk b fileSize fuel newOff.toNat (c :: acc)
        | _, _, _ => .error .oob
    else .ok acc.reverse

theorem rdI32?_eq_some (b : Buf) (i : Nat) (h : i + 4 ≤ b.length) :
    rdI32? b i = some (toI32 (rdU32 b i)) := by
  simp [rdI32?, rdU32?, h]

/-- Every value the walk could pick up as a `next` field (any signed i32 at
`o + 12` for a header position `o` with `o + 16 ≤ byteLength`) is either 0
or at least 16, so the walk always strides forward. -/
def goodNexts (b : Buf) : Prop :=
  ∀ o < b.length, o + 16 ≤ b.length →
    toI32 (rdU32 b (o + 12)) = 0 ∨ 16 ≤ toI32 (rdU32 b (o + 12))

instance (b : Buf) : Decidable (goodNexts b) := by
  unfold goodNexts
  exact Nat.decidableBallLT _ _

theorem chunkWalk_no_oob (b : Buf) (fs : Int) :
    ∀ fuel off acc, chunkWalk b fs fuel off acc ≠ .error .oob := by
  intro fuel
  induction fuel with
  | zero =>
    intro off acc
    unfold chunkWalk
    split <;> simp
  | succ n ih =>
    intro off acc
    unfold chunkWalk
    split
    · next hcond =>
      by_cases hfit : b.length < off + 16
      · simp [hfit]
      · have h4 : off + 4 + 4 ≤ b.length := by omega
        have h8 : off + 8 + 4 ≤ b.length := by omega
        have h12 : off + 12 + 4 ≤ b.length := by omega
        rw [if_neg hfit, rdI32?_eq_some b _ h4, rdI32?_eq_some b _ h8,
          rdI32?_eq_some b _ h12]
        simp only
        split
        · simp
        · split
          · simp
          · exact ih _ _
    · simp

theorem chunkWalk_term (b : Buf) (fs : Int) (hg : goodNexts b) :
    ∀ fuel off acc, (b.length - off + 15) / 16 ≤ fuel →
      chunkWalk b fs fuel off acc ≠ .error .fuelOut := by
  intro fuel
  induction fuel with
  | zero =>
    intro off acc hb
    unfold chunkWalk
    have : ¬ ((off : Int) < fs ∧ off < b.length) := by
      rintro ⟨-, h2⟩
      omega
    simp [this]
  | succ n ih =>
    intro off acc hb
    unfold chunkWalk
    split
    · next hcond =>
      by_cases hfit : b.length < off + 16
      · simp [hfit]
      · have h4 : off + 4 + 4 ≤ b.length := by omega
        have h8 : off + 8 + 4 ≤ b.length := by omega
        have h12 : off + 12 + 4 ≤ b.length := by omega
        rw [if_neg hfit, rdI32?_eq_some b _ h4, rdI32?_eq_some b _ h8,
          rdI32?_eq_some b _ h12]
        simp only
        have hnx := hg off hcond.2 (by omega)
        rcases hnx with hnx | hnx
        · simp [hnx]
        · have hne : toI32 (rdU32 b (off + 12)) ≠ 0 := by omega
          rw [if_neg hne]
          split
          · simp
          · next hrange =>
            apply ih
            have hnn : ¬ ((off : Int) + 16 + (toI32 (rdU32 b (off + 12)) - 16) < 0 ∨
                (b.length : Int) < (off : Int) + 16 + (toI32 (rdU32 b (off + 12)) - 16)) :=
              hrange
            push_neg at hnn
            have h1 : ((off : Int) + 16 + (toI32 (rdU32 b (off + 12)) - 16)).toNat ≥ off + 16 := by
              omega
            have h2 : ((off : Int) + 16 + (toI32 (rdU32 b (off + 12)) - 16)).toNat ≤ b.length := by
              omega
            omega
    · simp

instance {ε α : Type} [DecidableEq ε] [DecidableEq α] : DecidableEq (Except ε α) := fun
  | .error a, .error b =>
    if h : a = b then .isTrue (by rw [h]) else
      .isFalse (by intro hh; cases hh; exact h rfl)
  | .error _, .ok _ => .isFalse (by intro hh; cases hh)
  | .ok _, .error _ => .isFalse (by intro hh; cases hh)
  | .ok a, .ok b =>
    if h : a = b then .isTrue (by rw [h]) else
      .isFalse (by intro hh; cases hh; exact h rfl)

/-- A 68-byte buffer whose two chunk headers point at each other: the chunk
at offset 20 has `next = 32` (forward to offset 52) and the chunk at offset
52 has `next = -32` (back to offset 20), so the walk cycles forever. -/
def loopBuf : Buf :=
  [73, 76, 70, 70] ++ le32 100 ++ zeros 12 ++
  [65, 65, 65, 65] ++ le32 0 ++ le32 0 ++ le32 32 ++ zeros 16 ++
  [66, 66, 66, 66] ++ le32 0 ++ le32 0 ++ [224, 255, 255, 255]

/-- C2, counterexample — on `loopBuf` (valid `ILFF` magic, declared size
100), the chunk walk does not terminate within `bufferLength / 16 = 4`
iterations: the two `next` links form a cycle between offsets 20 and 52,
so the loop never exits (the fueled model exhausts any fuel). -/
theorem chunkWalk_cycle_exceeds_div16_bound :
    chunkWalk loopBuf (toI32 (rdU32 loopBuf 4)) (loopBuf.length / 16) 20 [] =
      .error .fuelOut := by decide

/-- C2, amended — the chunk walk never attempts a read past `bufferLength`
(header reads are guarded by `offset + 16 ≤ bufferLength`), and it
terminates within `bufferLength / 16` iterations provided every `next`
field it could encounter is 0 or at least 16 (`goodNexts`); without that
restriction a backward `next` can revisit offsets and the loop need not
terminate at all (see the counterexample). -/
theorem chunkWalk_bounds_and_conditional_termination (b : Buf) (fs : Int) :
    (∀ fuel off acc, chunkWalk b fs fuel off acc ≠ .error .oob) ∧
    (goodNexts b → chunkWalk b fs (b.length / 16) 20 [] ≠ .error .fuelOut) := by
  refine ⟨chunkWalk_no_oob b fs, fun hg => chunkWalk_term b fs hg _ _ _ ?_⟩
  omega

/-- C2, witness — the amended theorem applied to the empty buffer. -/
theorem chunkWalk_bounds_witness :
    chunkWalk [] 0 3 0 [] ≠ .error .oob ∧ chunkWalk [] 0 0 20 [] ≠ .error .fuelOut :=
  ⟨(chunkWalk_bounds_and_conditional_termination [] 0).1 3 0 [],
   (chunkWalk_bounds_and_conditional_termination [] 0).2 (by decide)⟩

/-! ## MeshAssembler and ModelCodec (`MEFParser.parse`) -/

def tagXTRV : Buf := [88, 84, 82, 86]
def tagXTVC : Buf := [88, 84, 86, 67]
def tagXTVS : Buf := [88, 84, 86, 83]
def tagECAF : Buf := [69, 67, 65, 70]
def tagECFC : Buf := [69, 67, 70, 67]
def tagCAFS : Buf := [67, 65, 70, 83]
def tagHSEM : Buf := [72, 83, 69, 77]
def tagD3DR : Buf := [68, 51, 68, 82]

/-- The 4 container-signature bytes, `"ILFF"`. -/
def ilffTag : Buf := [73, 76, 70, 70]

/-- One assembled mesh (`MEFMesh` in the source).  `vertices` holds the
float32 bit patterns extracted three words per vertex; `indices` the kept
u16 triangle indices, three per triangle. -/
structure MEFMesh where
  name : String
  vertices : Buf
  indices : List Nat
  vertexCount : Int
  triangleCount : Nat
  category : String
deriving Repr, DecidableEq

/-- Optional metadata gathered in the first pass (`MEFModelInfo`). -/
structure MEFModelInfo where
  modelType : Option Int
  vertexCount : Option Int
  faceCount : Option Int
deriving Repr, DecidableEq

/-- The aggregate parse result (`MEFModel`). -/
structure MEFModel where
  meshes : List MEFMesh
  totalVertices : Int
  totalTriangles : Nat
  fileSize : Int
  chunks : List MEFChunk
  modelInfo : MEFModelInfo
deriving Repr, DecidableEq

/-- First pass over the chunk table (`parseHSEMChunk` / `parseD3DRChunk`):
HSEM contributes a model-type code, D3DR a declared face and vertex count;
any failed read is caught in the source and contributes nothing. -/
def pass1Step (b : Buf) (info : MEFModelInfo) (c : MEFChunk) : MEFModelInfo :=
  if c.name = tagHSEM then
    if c.size < 16 then info
    else
      match rdI32? b (c.offset + 16) with
      | some t => { info with modelType := some t }
      | none => info
  else if c.name = tagD3DR then
    if c.size < 8 then info
    else
      match rdI32? b (c.offset + 16), rdI32? b (c.offset + 20) with
      | some fc, some vc => { info with faceCount := some fc, vertexCount := some vc }
      | _, _ => info
  else info

/-- Position extraction from a vertex chunk.  The source builds
`new DataView(vertexData.buffer)` where `vertexData` is a *view* into the
whole file buffer, so `getFloat32(i * stride + k)` reads from the start of
the file, not from the chunk payload; the model reads from the full buffer
`b` accordingly.  Each read is bounds-checked against the full buffer, as
`DataView` is. -/
def extractPos (b : Buf) (stride : Nat) : Nat → Nat → List Nat → Option (List Nat)
  | 0, _, acc => some acc.reverse
  | n + 1, i, acc =>
    match rdU32? b (i * stride), rdU32? b (i * stride + 4), rdU32? b (i * stride + 8) with
    | some x, some y, some z => extractPos b stride n (i + 1) (z :: y :: x :: acc)
    | _, _, _ => none

/-- Read `n` tightly packed 6-byte triangles (ECAF/CAFS) from absolute
offset `off`, keeping a triangle only when all three u16 indices are below
`cnt`; `none` models a read beyond the buffer (caught by the source, which
then discards the partial index list). -/
def readTris (b : Buf) (cnt : Int) : Nat → Nat → List Nat → Option (List Nat)
  | 0, _, acc => some acc.reverse
  | n + 1, off, acc =>
    match rdU16? b off, rdU16? b (off + 2), rdU16? b (off + 4) with
    | some a, some a2, some a3 =>
      let acc' := if (a : Int) < cnt ∧ (a2 : Int) < cnt ∧ (a3 : Int) < cnt
        then a3 :: a2 :: a :: acc else acc
      readTris b cnt n (off + 6) acc'
    | _, _, _ => none

/-- Read `n` 8-byte collision triangles (ECFC): three u16 indices then a
2-byte padding skip (`seek(2, true)`, which fails past the buffer end). -/
def readTrisPad (b : Buf) (cnt : Int) : Nat → Nat → List Nat → Option (List Nat)
  | 0, _, acc => some acc.reverse
  | n + 1, off, acc =>
    match rdU16? b off, rdU16? b (off + 2), rdU16? b (off + 4) with
    | some a, some a2, some a3 =>
      let acc' := if (a : Int) < cnt ∧ (a2 : Int) < cnt ∧ (a3 : Int) < cnt
        then a3 :: a2 :: a :: acc else acc
      if off + 8 ≤ b.length then readTrisPad b cnt n (off + 8) acc' else none
    | _, _, _ => none

/-- The mutable state of the geometry pass: emitted meshes, running totals,
one pending vertex buffer (with its count) per category, and the shared
mesh counter. -/
structure AsmState where
  meshes : List MEFMesh
  totalVertices : Int
  totalTriangles : Nat
  render : Option Buf
  renderCount : Int
  collision : Option Buf
  collisionCount : Int
  shadow : Option Buf
  shadowCount : Int
  counter : Nat
deriving Repr, DecidableEq

def initAsm : AsmState := ⟨[], 0, 0, none, 0, none, 0, none, 0, 0⟩

/-- One iteration of the geometry pass of `MEFParser.parse` for chunk `c`.
Chunks whose payload would exceed the buffer are skipped; vertex chunks
(XTRV/XTVC/XTVS) run the detector and store a pending vertex buffer; face
chunks (ECAF/ECFC/CAFS) are processed only when their category has a
pending vertex buffer, filter out-of-range triangles, emit a mesh when at
least one triangle survives, and clear the pending buffer regardless.
(The absolute `seek(payloadOffset)` of the source cannot fail for
walk-produced chunks, whose header offset satisfies
`offset + 16 ≤ byteLength`, and is not modelled.) -/
def stepChunk (b : Buf) (s : AsmState) (c : MEFChunk) : AsmState :=
  if (b.length : Int) < ((c.offset + 16 : Nat) : Int) + c.size then s
  else if c.name = tagXTRV then
    if 0 < c.size then
      match detectVertexFormat c.size with
      | none => s
      | some f =>
        match extractPos b f.stride.toNat f.vertexCount.toNat 0 [] with
        | some vs => { s with render := some vs, renderCount := f.vertexCount }
        | none => { s with render := none, renderCount := 0 }
    else s
  else if c.name = tagXTVC then
    if 0 < c.size then
      match detectVertexFormat c.size with
      | none => s
      | some f =>
        match extractPos b f.stride.toNat f.vertexCount.toNat 0 [] with
        | some vs => { s with collision := some vs, collisionCount := f.vertexCount }
        | none => { s with collision := none, collisionCount := 0 }
    else s
  else if c.name = tagXTVS then
    if 0 < c.size then
      match detectVertexFormat c.size with
      | none => s
      | some f =>
        match extractPos b f.stride.toNat f.vertexCount.toNat 0 [] with
        | some vs => { s with shadow := some vs, shadowCount := f.vertexCount }
        | none => { s with shadow := none, shadowCount := 0 }
    else s
  else if c.name = tagECAF then
    if 0 < c.size ∧ s.render.isSome then
      match readTris b s.renderCount ((c.size.toNat + 5) / 6) (c.offset + 16) [] with
      | none => { s with render := none, renderCount := 0 }
      | some idx =>
        if idx = [] then { s with render := none, renderCount := 0 }
        else
          { s with
            meshes := s.meshes ++ [⟨"render_mesh_" ++ toString s.counter,
              s.render.getD [], idx, s.renderCount, idx.length / 3, "render"⟩],
            totalVertices := s.totalVertices + s.renderCount,
            totalTriangles := s.totalTriangles + idx.length / 3,
            render := none, renderCount := 0, counter := s.counter + 1 }
    else s
  else if c.name = tagECFC then
    if 0 < c.size ∧ s.collision.isSome then
      match readTrisPad b s.collisionCount ((c.size.toNat + 7) / 8) (c.offset + 16) [] with
      | none => { s with collision := none, collisionCount := 0 }
      | some idx =>
        if idx = [] then { s with collision := none, collisionCount := 0 }
        else
          { s with
            meshes := s.meshes ++ [⟨"collision_mesh_" ++ toString s.counter,
              s.collision.getD [], idx, s.collisionCount, idx.length / 3, "collision"⟩],
            totalVertices := s.totalVertices + s.collisionCount,
            totalTriangles := s.totalTriangles + idx.length / 3,
            collision := none, collisionCount := 0, counter := s.counter + 1 }
    else s
  else if c.name = tagCAFS then
    if 0 < c.size ∧ s.shadow.isSome then
      match readTris b s.shadowCount ((c.size.toNat + 5) / 6) (c.offset + 16) [] with
      | none => { s with shadow := none, shadowCount := 0 }
      | some idx =>
        if idx = [] then { s with shadow := none, shadowCount := 0 }
        else
          { s with
            meshes := s.meshes ++ [⟨"shadow_mesh_" ++ toString s.counter,
              s.shadow.getD [], idx, s.shadowCount, idx.length / 3, "shadow"⟩],
            totalVertices := s.totalVertices + s.shadowCount,
            totalTriangles := s.totalTriangles + idx.length / 3,
            shadow := none, shadowCount := 0, counter := s.counter + 1 }
    else s
  else s

inductive ParseErr
  | tooSmall
  | badMagic
  | noValidMeshes
  | walkStuck
deriving Repr, DecidableEq

/-- `MEFParser.parse`: header validation, chunk walk (with `fuel` bounding
the model of the unbounded source loop), metadata pass, geometry pass, and
the zero-meshes fatal check. -/
def parseMEF (fuel : Nat) (b : Buf) : Except ParseErr MEFModel :=
  if b.length < 8 then .error .tooSmall
  else if b.take 4 ≠ ilffTag then .error .badMagic
  else
    match chunkWalk b (toI32 (rdU32 b 4)) fuel 20 [] with
    | .error _ => .error .walkStuck
    | .ok chunks =>
      if (chunks.foldl (stepChunk b) initAsm).meshes = [] then .error .noValidMeshes
      else .ok ⟨(chunks.foldl (stepChunk b) initAsm).meshes,
        (chunks.foldl (stepChunk b) initAsm).totalVertices,
        (chunks.foldl (stepChunk b) initAsm).totalTriangles,
        toI32 (rdU32 b 4), chunks, chunks.foldl (pass1Step b) ⟨none, none, none⟩⟩

/-- `parseMEF` at the canonical fuel `byteLength + 2`: a strictly advancing
walk visits at most `byteLength + 1` distinct offsets, so exhausting this
fuel happens exactly when the source loop revisits an offset and therefore
never terminates. -/
def parseMEFTop (b : Buf) : Except ParseErr MEFModel := parseMEF (b.length + 2) b

/-! ## OBJToMEFConverter: the minimal encoder (`convertToMEF` after
`parseOBJ` has filled `objData`)

Vertex coordinates, normals and uvs are carried as 32-bit float bit
patterns (`writeFloat32` stores exactly these four bytes); faces are u16
index triples (`writeUint16`). -/

/-- A 16-byte chunk header (`createChunkHeader`): 4 tag bytes, then size,
param and next as little-endian 32-bit stores. -/
def chunkHeader (tag : Buf) (size : Nat) (param next : Nat) : Buf :=
  tag ++ le32 size ++ le32 param ++ le32 next

/-- Bytes of one 3-float record. -/
def f32triple (t : Nat × Nat × Nat) : Buf := le32 t.1 ++ le32 t.2.1 ++ le32 t.2.2

/-- Per-vertex stride chosen by `createXTRVChunk` from the available data. -/
def vtxStride (hasN hasU : Bool) : Nat :=
  12 + (if hasN then 12 else 0) + (if hasU then 8 else 0)

/-- The sequential vertex writes of `createXTRVChunk`: position always;
normal and uv only when globally present *and* defined at this index (a
missing entry advances nothing, shifting later records — preserved). -/
def xtrvBody (hasN hasU : Bool) (normals : List (Nat × Nat × Nat))
    (uvs : List (Nat × Nat)) : Nat → List (Nat × Nat × Nat) → Buf
  | _, [] => []
  | i, v :: vs =>
    f32triple v ++
    (if hasN then
      match normals.get? i with
      | some nr => f32triple nr
      | none => []
     else []) ++
    (if hasU then
      match uvs.get? i with
      | some uv => le32 uv.1 ++ le32 uv.2
      | none => []
     else []) ++
    xtrvBody hasN hasU normals uvs (i + 1) vs

/-- `createXTRVChunk`: header with `chunkSize = vertexCount * stride`, the
written vertex records, and the zero bytes of the untouched remainder of
the `ArrayBuffer` allocation. -/
def createXTRVChunk (vertices normals : List (Nat × Nat × Nat))
    (uvs : List (Nat × Nat)) : Buf :=
  let hasN := normals.length > 0
  let hasU := uvs.length > 0
  let chunkSize := vertices.length * vtxStride hasN hasU
  let body := xtrvBody hasN hasU normals uvs 0 vertices
  chunkHeader tagXTRV chunkSize 0 0 ++ body ++ zeros (chunkSize - body.length)

/-- `createECAFChunk`: header with `chunkSize = faceCount * 6` and three
u16 stores per face. -/
def createECAFChunk (faces : List (Nat × Nat × Nat)) : Buf :=
  chunkHeader tagECAF (faces.length * 6) 0 0 ++
  faces.flatMap fun f => le16 f.1 ++ le16 f.2.1 ++ le16 f.2.2

inductive ConvErr
  | noVertices
  | noFaces
deriving Repr, DecidableEq

/-- `OBJToMEFConverter.convertToMEF` on already-parsed OBJ data: reject an
empty mesh, then emit `"ILFF"`, the total size, the XTRV chunk and the
ECAF chunk — with no 12-byte reserved block and with both chunks' `next`
fields left 0. -/
def convertToMEF (vertices normals : List (Nat × Nat × Nat))
    (uvs : List (Nat × Nat)) (faces : List (Nat × Nat × Nat)) :
    Except ConvErr Buf :=
  if vertices = [] then .error .noVertices
  else if faces = [] then .error .noFaces
  else
    .ok (ilffTag ++
      le32 (8 + (createXTRVChunk vertices normals uvs).length +
        (createECAFChunk faces).length) ++
      createXTRVChunk vertices normals uvs ++ createECAFChunk faces)

/-! ## Error conditions of `parseMEF` (C8) -/

/-- C8 — `parse` fails with the too-small error exactly when the buffer is
shorter than 8 bytes, and with the bad-magic error exactly when the buffer
has at least 8 bytes but its first 4 bytes are not `"ILFF"`. -/
theorem parse_header_error_conditions (b : Buf) :
    (parseMEFTop b = .error .tooSmall ↔ b.length < 8) ∧
    (parseMEFTop b = .error .badMagic ↔ ¬ b.length < 8 ∧ b.take 4 ≠ ilffTag) := by
  unfold parseMEFTop parseMEF
  by_cases h1 : b.length < 8
  · simp [h1]
  · by_cases h2 : b.take 4 = ilffTag
    · simp only [if_neg h1, h2, ne_eq, not_true_eq_false, if_false, not_false_eq_true,
        true_and]
      rcases hw : chunkWalk b (toI32 (rdU32 b 4)) (b.length + 2) 20 [] with e | chunks
      · simp [h1]
      · by_cases hm : (chunks.foldl (stepChunk b) initAsm).meshes = [] <;> simp [hm, h1]
    · simp [h1, h2]

/-- C8, witness — the theorem applied to an 8-byte all-zero buffer, whose
magic bytes are not `"ILFF"`. -/
theorem parse_header_error_conditions_witness :
    parseMEFTop (zeros 8) = .error .badMagic :=
  (parse_header_error_conditions (zeros 8)).2.mpr (by decide)

/-! ## The pending-buffer discipline of the geometry pass (C9) -/

/-- C9 — for any chunk a walk can produce (`offset + 16 ≤ byteLength`): a
face chunk is a no-op when its category has no pending vertex buffer; after
any face-chunk step the pending buffer of its category is cleared unless
the step was a no-op (so a decoded vertex buffer feeds at most one mesh);
and a vertex-chunk step never emits a mesh (so a vertex chunk with no
following face chunk of its category yields none). -/
theorem face_chunk_pending_discipline (b : Buf) (s : AsmState) (c : MEFChunk)
    (_hofs : c.offset + 16 ≤ b.length) :
    (c.name = tagECAF → (s.render = none → stepChunk b s c = s) ∧
      ((stepChunk b s c).render = none ∨ stepChunk b s c = s)) ∧
    (c.name = tagECFC → (s.collision = none → stepChunk b s c = s) ∧
      ((stepChunk b s c).collision = none ∨ stepChunk b s c = s)) ∧
    (c.name = tagCAFS → (s.shadow = none → stepChunk b s c = s) ∧
      ((stepChunk b s c).shadow = none ∨ stepChunk b s c = s)) ∧
    ((c.name = tagXTRV ∨ c.name = tagXTVC ∨ c.name = tagXTVS) →
      (stepChunk b s c).meshes = s.meshes) := by
  refine ⟨fun h => ?_, fun h => ?_, fun h => ?_, fun h => ?_⟩
  · unfold stepChunk
    rw [h]
    have : tagECAF ≠ tagXTRV ∧ tagECAF ≠ tagXTVC ∧ tagECAF ≠ tagXTVS := by decide
    simp only [this.1, this.2.1, this.2.2, if_false, if_true, reduceIte]
    constructor
    · intro hr
      split
      · rfl
      · simp [hr]
    · split
      · exact .inr rfl
      · split
        · split
          · simp
          · split <;> simp
        · exact .inr rfl
  · unfold stepChunk
    rw [h]
    have : tagECFC ≠ tagXTRV ∧ tagECFC ≠ tagXTVC ∧ tagECFC ≠ tagXTVS ∧
        tagECFC ≠ tagECAF := by decide
    simp only [this.1, this.2.1, this.2.2.1, this.2.2.2, if_false, reduceIte]
    constructor
    · intro hr
      split
      · rfl
      · simp [hr]
    · split
      · exact .inr rfl
      · split
        · split
          · simp
          · split <;> simp
        · exact .inr rfl
  · unfold stepChunk
    rw [h]
    have : tagCAFS ≠ tagXTRV ∧ tagCAFS ≠ tagXTVC ∧ tagCAFS ≠ tagXTVS ∧
        tagCAFS ≠ tagECAF ∧ tagCAFS ≠ tagECFC := by decide
    simp only [this.1, this.2.1, this.2.2.1, this.2.2.2.1, this.2.2.2.2, if_false,
      reduceIte]
    constructor
    · intro hr
      split
      · rfl
      · simp [hr]
    · split
      · exact .inr rfl
      · split
        · split
          · simp
          · split <;> simp
        · exact .inr rfl
  · unfold stepChunk
    by_cases hskip : (b.length : Int) < ((c.offset + 16 : Nat) : Int) + c.size
    · rw [if_pos hskip]
    · rw [if_neg hskip]
      rcases h with h | h | h <;> rw [h]
      · rw [if_pos rfl]
        by_cases hsz : (0 : Int) < c.size
        · rw [if_pos hsz]
          cases detectVertexFormat c.size with
          | none => rfl
          | some f =>
            dsimp only
            cases extractPos b f.stride.toNat f.vertexCount.toNat 0 [] <;> rfl
        · rw [if_neg hsz]
      · rw [if_neg (by decide : ¬ tagXTVC = tagXTRV), if_pos rfl]
        by_cases hsz : (0 : Int) < c.size
        · rw [if_pos hsz]
          cases detectVertexFormat c.size with
          | none => rfl
          | some f =>
            dsimp only
            cases extractPos b f.stride.toNat f.vertexCount.toNat 0 [] <;> rfl
        · rw [if_neg hsz]
      · rw [if_neg (by decide : ¬ tagXTVS = tagXTRV),
          if_neg (by decide : ¬ tagXTVS = tagXTVC), if_pos rfl]
        by_cases hsz : (0 : Int) < c.size
        · rw [if_pos hsz]
          cases detectVertexFormat c.size with
          | none => rfl
          | some f =>
            dsimp only
            cases extractPos b f.stride.toNat f.vertexCount.toNat 0 [] <;> rfl
        · rw [if_neg hsz]

/-- C9, witness — the theorem applied to a concrete face chunk and a state
with a pending render buffer. -/
theorem face_chunk_pending_discipline_witness :
    (stepChunk (zeros 16) ⟨[], 0, 0, some [0, 0, 0], 1, none, 0, none, 0, 0⟩
        ⟨tagECAF, 0, -1, 0⟩).render = none ∨
    stepChunk (zeros 16) ⟨[], 0, 0, some [0, 0, 0], 1, none, 0, none, 0, 0⟩
        ⟨tagECAF, 0, -1, 0⟩ = ⟨[], 0, 0, some [0, 0, 0], 1, none, 0, none, 0, 0⟩ :=
  ((face_chunk_pending_discipline (zeros 16) _ _ (by decide)).1 rfl).2


/-! ## Index validity of every assembled mesh (C7) -/

/-- Every triangle index of the mesh is strictly below its vertex count. -/
def meshIndicesValid (m : MEFMesh) : Bool :=
  m.indices.all fun i => decide ((i : Int) < m.vertexCount)

theorem readTris_bounded (b : Buf) (cnt : Int) :
    ∀ n off acc, (∀ i : Nat, i ∈ acc → (i : Int) < cnt) →
      ∀ r, readTris b cnt n off acc = some r →
        ∀ i : Nat, i ∈ r → (i : Int) < cnt := by
  intro n
  induction n with
  | zero =>
    intro off acc hacc r hr i hi
    unfold readTris at hr
    cases hr
    exact hacc i (List.mem_reverse.mp hi)
  | succ n ih =>
    intro off acc hacc r hr i hi
    unfold readTris at hr
    rcases h1 : rdU16? b off with _ | a <;> rw [h1] at hr
    · cases hr
    rcases h2 : rdU16? b (off + 2) with _ | a2 <;> rw [h2] at hr
    · cases hr
    rcases h3 : rdU16? b (off + 4) with _ | a3 <;> rw [h3] at hr
    · cases hr
    dsimp only at hr
    refine ih (off + 6) _ ?_ r hr i hi
    intro j hj
    split at hj
    · next hlt =>
      simp only [List.mem_cons] at hj
      rcases hj with rfl | rfl | rfl | hj
      · exact hlt.2.2
      · exact hlt.2.1
      · exact hlt.1
      · exact hacc j hj
    · exact hacc j hj

theorem readTrisPad_bounded (b : Buf) (cnt : Int) :
    ∀ n off acc, (∀ i : Nat, i ∈ acc → (i : Int) < cnt) →
      ∀ r, readTrisPad b cnt n off acc = some r →
        ∀ i : Nat, i ∈ r → (i : Int) < cnt := by
  intro n
  induction n with
  | zero =>
    intro off acc hacc r hr i hi
    unfold readTrisPad at hr
    cases hr
    exact hacc i (List.mem_reverse.mp hi)
  | succ n ih =>
    intro off acc hacc r hr i hi
    unfold readTrisPad at hr
    rcases h1 : rdU16? b off with _ | a <;> rw [h1] at hr
    · cases hr
    rcases h2 : rdU16? b (off + 2) with _ | a2 <;> rw [h2] at hr
    · cases hr
    rcases h3 : rdU16? b (off + 4) with _ | a3 <;> rw [h3] at hr
    · cases hr
    dsimp only at hr
    split at hr
    · refine ih (off + 8) _ ?_ r hr i hi
      intro j hj
      split at hj
      · next hlt =>
        simp only [List.mem_cons] at hj
        rcases hj with rfl | rfl | rfl | hj
        · exact hlt.2.2
        · exact hlt.2.1
        · exact hlt.1
        · exact hacc j hj
      · exact hacc j hj
    · cases hr

theorem all_append_mesh (l : List MEFMesh) (m : MEFMesh)
    (hl : l.all meshIndicesValid = true) (hm : meshIndicesValid m = true) :
    (l ++ [m]).all meshIndicesValid = true := by
  simp [List.all_append, hl, hm]

theorem stepChunk_keeps_meshIndicesValid (b : Buf) (s : AsmState) (c : MEFChunk)
    (h : s.meshes.all meshIndicesValid = true) :
    (stepChunk b s c).meshes.all meshIndicesValid = true := by
  unfold stepChunk
  by_cases h0 : (b.length : Int) < ((c.offset + 16 : Nat) : Int) + c.size
  · rw [if_pos h0]; exact h
  rw [if_neg h0]
  by_cases h1 : c.name = tagXTRV
  · rw [if_pos h1]
    by_cases hsz : (0 : Int) < c.size
    · rw [if_pos hsz]
      cases detectVertexFormat c.size with
      | none => exact h
      | some f =>
        dsimp only
        cases extractPos b f.stride.toNat f.vertexCount.toNat 0 [] <;> exact h
    · rw [if_neg hsz]; exact h
  rw [if_neg h1]
  by_cases h2 : c.name = tagXTVC
  · rw [if_pos h2]
    by_cases hsz : (0 : Int) < c.size
    · rw [if_pos hsz]
      cases detectVertexFormat c.size with
      | none => exact h
      | some f =>
        dsimp only
        cases extractPos b f.stride.toNat f.vertexCount.toNat 0 [] <;> exact h
    · rw [if_neg hsz]; exact h
  rw [if_neg h2]
  by_cases h3 : c.name = tagXTVS
  · rw [if_pos h3]
    by_cases hsz : (0 : Int) < c.size
    · rw [if_pos hsz]
      cases detectVertexFormat c.size with
      | none => exact h
      | some f =>
        dsimp only
        cases extractPos b f.stride.toNat f.vertexCount.toNat 0 [] <;> exact h
    · rw [if_neg hsz]; exact h
  rw [if_neg h3]
  by_cases h4 : c.name = tagECAF
  · rw [if_pos h4]
    by_cases hc : (0 : Int) < c.size ∧ s.render.isSome = true
    · rw [if_pos hc]
      rcases hread : readTris b s.renderCount ((c.size.toNat + 5) / 6) (c.offset + 16) []
        with _ | idx
      · exact h
      · dsimp only
        by_cases hidx : idx = []
        · rw [if_pos hidx]; exact h
        · rw [if_neg hidx]
          refine all_append_mesh _ _ h ?_
          simp only [meshIndicesValid, List.all_eq_true, decide_eq_true_eq]
          exact fun i hi =>
            readTris_bounded b s.renderCount _ _ [] (by simp) idx hread i hi
    · rw [if_neg hc]; exact h
  rw [if_neg h4]
  by_cases h5 : c.name = tagECFC
  · rw [if_pos h5]
    by_cases hc : (0 : Int) < c.size ∧ s.collision.isSome = true
    · rw [if_pos hc]
      rcases hread : readTrisPad b s.collisionCount ((c.size.toNat + 7) / 8) (c.offset + 16) []
        with _ | idx
      · exact h
      · dsimp only
        by_cases hidx : idx = []
        · rw [if_pos hidx]; exact h
        · rw [if_neg hidx]
          refine all_append_mesh _ _ h ?_
          simp only [meshIndicesValid, List.all_eq_true, decide_eq_true_eq]
          exact fun i hi =>
            readTrisPad_bounded b s.collisionCount _ _ [] (by simp) idx hread i hi
    · rw [if_neg hc]; exact h
  rw [if_neg h5]
  by_cases h6 : c.name = tagCAFS
  · rw [if_pos h6]
    by_cases hc : (0 : Int) < c.size ∧ s.shadow.isSome = true
    · rw [if_pos hc]
      rcases hread : readTris b s.shadowCount ((c.size.toNat + 5) / 6) (c.offset + 16) []
        with _ | idx
      · exact h
      · dsimp only
        by_cases hidx : idx = []
        · rw [if_pos hidx]; exact h
        · rw [if_neg hidx]
          refine all_append_mesh _ _ h ?_
          simp only [meshIndicesValid, List.all_eq_true, decide_eq_true_eq]
          exact fun i hi =>
            readTris_bounded b s.shadowCount _ _ [] (by simp) idx hread i hi
    · rw [if_neg hc]; exact h
  rw [if_neg h6]
  exact h

theorem foldl_stepChunk_meshIndicesValid (b : Buf) (chunks : List MEFChunk)
    (s : AsmState) (h : s.meshes.all meshIndicesValid = true) :
    ((chunks.foldl (stepChunk b) s).meshes.all meshIndicesValid) = true := by
  induction chunks generalizing s with
  | nil => exact h
  | cons c t ih => exact ih _ (stepChunk_keeps_meshIndicesValid b s c h)

/-- C7 — whenever `parse` succeeds, every mesh of the returned model has
all of its triangle indices strictly below its vertex count: out-of-range
triangles are filtered out before a mesh is emitted. -/
theorem parse_meshes_have_valid_indices (fuel : Nat) (b : Buf) :
    ((parseMEF fuel b).toOption.all fun M => M.meshes.all meshIndicesValid) = true := by
  unfold parseMEF
  split
  · rfl
  split
  · rfl
  cases chunkWalk b (toI32 (rdU32 b 4)) fuel 20 [] with
  | error e => rfl
  | ok chunks =>
    dsimp only
    split
    · rfl
    · simp only [Except.toOption, Option.all]
      exact foldl_stepChunk_meshIndicesValid b chunks initAsm rfl

/-! ## The minimal-cube scenario (C3) and the encode/decode round trip (C1) -/

/-- The unit cube's 8 corners as float32 bit patterns (0.0 ↦ 0,
1.0 ↦ 0x3F800000 = 1065353216). -/
def cubeVertices : List (Nat × Nat × Nat) :=
  [(0, 0, 0), (1065353216, 0, 0), (1065353216, 1065353216, 0), (0, 1065353216, 0),
   (0, 0, 1065353216), (1065353216, 0, 1065353216),
   (1065353216, 1065353216, 1065353216), (0, 1065353216, 1065353216)]

/-- 12 triangles, 2 per cube face. -/
def cubeFaces : List (Nat × Nat × Nat) :=
  [(0, 1, 2), (0, 2, 3), (4, 6, 5), (4, 7, 6), (0, 4, 5), (0, 5, 1),
   (3, 2, 6), (3, 6, 7), (1, 5, 6), (1, 6, 2), (0, 3, 7), (0, 7, 4)]

/-- The minimal encoder's output for the cube (no normals, no uvs). -/
def cubeMEF : Buf := (convertToMEF cubeVertices [] [] cubeFaces).toOption.getD []

set_option maxRecDepth 100000 in
/-- C3, counterexample — the cube encodes to a buffer whose length is not
380, and parsing that buffer does not succeed (so it yields no mesh at
all, let alone one with 8 vertices and 12 triangles). -/
theorem cube_scenario_fails :
    (convertToMEF cubeVertices [] [] cubeFaces).isOk = true ∧
    cubeMEF.length = 208 ∧ (parseMEFTop cubeMEF).isOk = false := by decide

set_option maxRecDepth 100000 in
/-- C3, amended — the stated size formula itself is right but sums to 208,
not 380: the cube buffer is `8 + 16 + 8*12 + 16 + 12*6 = 208` bytes; and
decoding it fails with the no-valid-meshes error, because the decoder
skips a 12-byte reserved block the minimal encoder never writes (see C1). -/
theorem cube_scenario_actual_size_and_decode :
    cubeMEF.length = 8 + 16 + 8 * 12 + 16 + 12 * 6 ∧
    parseMEFTop cubeMEF = .error .noValidMeshes := by decide

set_option maxRecDepth 100000 in
/-- C1, counterexample — a mesh with one vertex and one triangle: the
minimal encoder succeeds, but parsing its output fails with the
no-valid-meshes error instead of returning a model with one mesh. -/
theorem minimal_roundtrip_fails :
    (convertToMEF [(0, 0, 0)] [] [] [(0, 0, 0)]).map parseMEFTop =
      .ok (.error .noValidMeshes) := by decide

/-! ## ArchiveCodec: `RESArchiveBuilder` and `RESArchiveReader`

Filenames are modelled as their UTF-8 byte sequences (the `TextEncoder` /
`TextDecoder` pair is the identity on those bytes); file payloads are raw
bytes.  All u32 record fields are little-endian. -/

/-- `Math.ceil(n / 4) * 4`. -/
def pad4 (n : Nat) : Nat := (n + 3) / 4 * 4

/-- The bytes of `"LOCAL:"`. -/
def localTagBytes : Buf := [76, 79, 67, 65, 76, 58]

/-- `RESArchiveBuilder.addFile` name canonicalization. -/
def normalizeName (n : Buf) : Buf :=
  if localTagBytes.isPrefixOf n then n else localTagBytes ++ n

/-- One NAME/BODY record pair of `RESArchiveBuilder.build`: NAME header
(signature, filename length including the NUL, version 4, offset to the
BODY record), NUL-terminated filename padded to 4 bytes, BODY header
(signature, raw data length, version 4, padded body size), data padded to
4 bytes. -/
def entryBytes (nm dat : Buf) : Buf :=
  le32 0x454D414E ++ le32 (nm.length + 1) ++ le32 4 ++ le32 (16 + pad4 (nm.length + 1)) ++
  (nm ++ [0] ++ zeros (pad4 (nm.length + 1) - (nm.length + 1))) ++
  le32 0x59444F42 ++ le32 dat.length ++ le32 4 ++ le32 (16 + pad4 dat.length) ++
  (dat ++ zeros (pad4 dat.length - dat.length))

def encodeEntries (fs : List (Buf × Buf)) : Buf :=
  fs.flatMap fun e => entryBytes e.1 e.2

/-- `RESArchiveBuilder.build`: 16-byte archive header (`ILFF`, total size,
version 4, zero), `IRES` tag, then the record pairs. -/
def buildRES (fs : List (Buf × Buf)) : Buf :=
  le32 0x46464C49 ++ le32 (20 + (encodeEntries fs).length) ++ le32 4 ++ le32 0 ++
  le32 0x53455249 ++ encodeEntries fs

/-- `addFile` for every entry (the `LOCAL:` canonicalization) followed by
`build`. -/
def encodeArchive (entries : List (Buf × Buf)) : Buf :=
  buildRES (entries.map fun e => (normalizeName e.1, e.2))

/-- A decoded archive entry (`RESFileEntry`). -/
structure RESEntry where
  name : Buf
  data : Buf
deriving Repr, DecidableEq

/-- A decoded archive (`RESArchive`). -/
structure RESArchiveM where
  files : List RESEntry
  totalSize : Nat
deriving Repr, DecidableEq

/-- The entry loop of `RESArchiveReader.parse`: while `offset <
byteLength`, read a NAME header (a non-NAME signature ends the loop),
slice and NUL-strip the filename, jump to the BODY record via the NAME
header's offset field, fail-and-break on a BODY signature mismatch or any
out-of-range read (the source wraps the body in `try`/`catch` and breaks),
slice the data, and advance by `16 + pad4(filenameLength) +
paddedBodySize`.  Since every iteration advances the offset by at least
16, fuel `byteLength` is never exhausted; a fueled model is used so the
definition computes by kernel reduction. -/
def resLoop (b : Buf) : Nat → Nat → List RESEntry → List RESEntry
  | 0, _, acc => acc.reverse
  | fuel + 1, off, acc =>
    if off < b.length then
      match rdU32? b off with
      | none => acc.reverse
      | some sig =>
        if sig ≠ 0x454D414E then acc.reverse
        else
          match rdU32? b (off + 4), rdU32? b (off + 8), rdU32? b (off + 12) with
          | some fl, some _, some bo =>
            (match rdU32? b (off + bo) with
            | none => acc.reverse
            | some bsig =>
              if bsig ≠ 0x59444F42 then acc.reverse
              else
                match rdU32? b (off + bo + 4), rdU32? b (off + bo + 8),
                    rdU32? b (off + bo + 12) with
                | some flen, some _, some tfs =>
                  resLoop b fuel (off + 16 + pad4 fl + tfs)
                    (⟨((b.drop (off + 16)).take fl).filter (fun x => x != 0),
                      (b.drop (off + bo + 16)).take flen⟩ :: acc)
                | _, _, _ => acc.reverse)
          | _, _, _ => acc.reverse
    else acc.reverse

inductive RESErr
  | badILFF
  | badIRES
  | oob
deriving Repr, DecidableEq

/-- `RESArchiveReader.parse`: validate the outer `ILFF` signature, read the
archive size/version/zero fields, validate the `IRES` signature (an
out-of-range header read raises, uncaught), then run the entry loop. -/
def parseRES (b : Buf) : Except RESErr RESArchiveM :=
  match rdU32? b 0 with
  | none => .error .oob
  | some sig =>
    if sig ≠ 0x46464C49 then .error .badILFF
    else
      match rdU32? b 4, rdU32? b 8, rdU32? b 12, rdU32? b 16 with
      | some asz, some _, some _, some isig =>
        if isig ≠ 0x53455249 then .error .badIRES
        else .ok ⟨resLoop b b.length 20 [], asz⟩
      | _, _, _, _ => .error .oob

/-! ## C4: a BODY signature mismatch does not fail the whole decode -/

/-- A 44-byte archive with valid `ILFF`/`IRES` headers and one NAME record
whose body offset points at zero bytes instead of a BODY signature. -/
def corruptBodyBuf : Buf :=
  le32 0x46464C49 ++ le32 44 ++ le32 4 ++ le32 0 ++ le32 0x53455249 ++
  le32 0x454D414E ++ le32 3 ++ le32 4 ++ le32 20 ++ [97, 98, 0, 0] ++ le32 0

/-- C4, counterexample — on a buffer whose only record has a BODY
signature mismatch, `RESArchiveReader.parse` does not fail: it returns
normally with the (empty) list of entries decoded before the bad record. -/
theorem parse_survives_body_mismatch :
    parseRES corruptBodyBuf = .ok ⟨[], 44⟩ := by decide

/-- C4, amended — a BODY signature mismatch only breaks the entry loop:
whenever the record at the current offset has a NAME signature but the
value at its computed body offset is not the BODY signature, the loop
stops and returns exactly the entries already decoded (the source catches
its own throw inside the loop), so the surrounding decode still succeeds. -/
theorem resLoop_body_mismatch_keeps_entries (b : Buf) (fuel off : Nat)
    (acc : List RESEntry) (fl ver bo w : Nat)
    (hoff : off < b.length)
    (hsig : rdU32? b off = some 0x454D414E)
    (hfl : rdU32? b (off + 4) = some fl)
    (hver : rdU32? b (off + 8) = some ver)
    (hbo : rdU32? b (off + 12) = some bo)
    (hbs : rdU32? b (off + bo) = some w)
    (hw : w ≠ 0x59444F42) :
    resLoop b (fuel + 1) off acc = acc.reverse := by
  unfold resLoop
  rw [if_pos hoff, hsig]
  dsimp only
  rw [if_neg (by decide : ¬ (0x454D414E : Nat) ≠ 0x454D414E)]
  rw [hfl, hver, hbo]
  dsimp only
  rw [hbs]
  dsimp only
  rw [if_pos hw]

/-- C4, witness — the amended theorem applied to `corruptBodyBuf` with one
already-decoded entry in the accumulator. -/
theorem resLoop_body_mismatch_keeps_entries_witness :
    resLoop corruptBodyBuf 1 20 [⟨[107], [3]⟩] = [⟨[107], [3]⟩] :=
  resLoop_body_mismatch_keeps_entries corruptBodyBuf 0 20 [⟨[107], [3]⟩]
    3 4 20 0 (by decide) (by decide) (by decide) (by decide) (by decide)
    (by decide) (by decide)

/-! ## C10: decoded entry names never contain a NUL byte -/

theorem all_filter_self (l : Buf) (p : Nat → Bool) : (l.filter p).all p = true := by
  simp [List.all_eq_true]

theorem resLoop_names_nul_free (b : Buf) :
    ∀ fuel off acc, (acc.all fun e => e.name.all fun x => x != 0) = true →
      ((resLoop b fuel off acc).all fun e => e.name.all fun x => x != 0) = true := by
  intro fuel
  induction fuel with
  | zero =>
    intro off acc hacc
    unfold resLoop
    simpa using hacc
  | succ n ih =>
    intro off acc hacc
    unfold resLoop
    split
    · rcases h0 : rdU32? b off with _ | sig
      · simpa using hacc
      dsimp only
      split
      · simpa using hacc
      rcases h1 : rdU32? b (off + 4) with _ | fl <;>
        rcases h2 : rdU32? b (off + 8) with _ | ver <;>
          rcases h3 : rdU32? b (off + 12) with _ | bo <;> dsimp only <;>
            try simpa using hacc
      rcases h4 : rdU32? b (off + bo) with _ | bsig <;> dsimp only
      · simpa using hacc
      split
      · simpa using hacc
      rcases h5 : rdU32? b (off + bo + 4) with _ | flen <;>
        rcases h6 : rdU32? b (off + bo + 8) with _ | bver <;>
          rcases h7 : rdU32? b (off + bo + 12) with _ | tfs <;> dsimp only <;>
            try simpa using hacc
      refine ih _ _ ?_
      simp only [List.all_cons, Bool.and_eq_true]
      exact ⟨all_filter_self _ _, hacc⟩
    · simpa using hacc

/-- An archive built from one entry whose stored (already `LOCAL:`-tagged)
name contains an interior NUL byte. -/
def nulNameArchive : Buf := buildRES [([76, 79, 67, 65, 76, 58, 65, 0, 66], [7])]

/-- C10 — every file-entry name returned by `RESArchiveReader.parse` is
free of NUL bytes (the reader deletes every NUL from the decoded
filename, not only the terminator); consequently an archive entry whose
stored filename has an interior NUL (here `LOCAL:A\0B`) decodes to a
different name (`LOCAL:AB`). -/
theorem parseRES_names_nul_free (b : Buf) :
    ((parseRES b).toOption.all fun a =>
      a.files.all fun e => e.name.all fun x => x != 0) = true ∧
    (parseRES nulNameArchive).map (fun a => a.files.map RESEntry.name) =
      .ok [[76, 79, 67, 65, 76, 58, 65, 66]] := by
  constructor
  · unfold parseRES
    rcases rdU32? b 0 with _ | sig
    · rfl
    dsimp only
    split
    · rfl
    rcases rdU32? b 4 with _ | asz <;> rcases rdU32? b 8 with _ | v1 <;>
      rcases rdU32? b 12 with _ | v2 <;> rcases rdU32? b 16 with _ | isig <;>
        dsimp only <;> try rfl
    split
    · rfl
    simp only [Except.toOption, Option.all]
    exact resLoop_names_nul_free b _ 20 [] rfl
  · decide

/-- C10, witness — the universal half applied to the interior-NUL archive. -/
theorem parseRES_names_nul_free_witness :
    ((parseRES nulNameArchive).toOption.all fun a =>
      a.files.all fun e => e.name.all fun x => x != 0) = true :=
  (parseRES_names_nul_free nulNameArchive).1

/-! ## Reading back from structured buffers: positioned-read helpers -/

theorem rdU32_pre (pre : Buf) (v : Nat) (r : Buf) :
    rdU32 (pre ++ (le32 v ++ r)) pre.length = v % 4294967296 := by
  have h1 := rdU32_drop (pre ++ (le32 v ++ r)) pre.length 0
  rw [Nat.add_zero] at h1
  rw [← h1, drop_app, rdU32_le32]

theorem rdU32?_pre (pre : Buf) (v : Nat) (r : Buf) :
    rdU32? (pre ++ (le32 v ++ r)) pre.length = some (v % 4294967296) := by
  unfold rdU32?
  rw [if_pos, rdU32_pre]
  simp [List.length_append, le32_length]

theorem rdU32?_at (pre : Buf) (v : Nat) (r : Buf) (n : Nat) (h : pre.length = n) :
    rdU32? (pre ++ (le32 v ++ r)) n = some (v % 4294967296) := h ▸ rdU32?_pre pre v r

theorem rdU32?_zero (v : Nat) (r : Buf) :
    rdU32? (le32 v ++ r) 0 = some (v % 4294967296) := by
  unfold rdU32?
  rw [if_pos, rdU32_le32]
  simp [List.length_append, le32_length]

theorem toI32_mod (v : Nat) : toI32 (v % 4294967296) = toI32 v := by
  unfold toI32
  rw [Nat.mod_mod_of_dvd v dvd_rfl]

theorem rdI32?_at (pre : Buf) (v : Nat) (r : Buf) (n : Nat) (h : pre.length = n) :
    rdI32? (pre ++ (le32 v ++ r)) n = some (toI32 v) := by
  rw [rdI32?, rdU32?_at pre v r n h]
  simp [toI32_mod]

theorem drop_at (pre r : Buf) (n : Nat) (h : pre.length = n) :
    (pre ++ r).drop n = r := h ▸ drop_app pre r

theorem take_at (a r : Buf) (n : Nat) (h : a.length = n) :
    (a ++ r).take n = a := h ▸ take_app a r

/-! ## C6: the archive round trip -/

/-- C6, counterexample — an entry whose name holds an interior NUL
(`A\0B`): decoding the built archive returns name `LOCAL:AB`, which is not
the `LOCAL:`-normalized original name `LOCAL:A\0B`. -/
theorem archive_roundtrip_fails_on_nul_name :
    (parseRES (encodeArchive [([65, 0, 66], [1, 2, 3])])).map
        (fun a => a.files.map RESEntry.name) =
      .ok [[76, 79, 67, 65, 76, 58, 65, 66]] ∧
    normalizeName [65, 0, 66] = [76, 79, 67, 65, 76, 58, 65, 0, 66] := by decide

theorem pad4_ge (n : Nat) : n ≤ pad4 n := by unfold pad4; omega

theorem pad4_le (n : Nat) : pad4 n ≤ n + 3 := by unfold pad4; omega

theorem entryBytes_length (nm dat : Buf) :
    (entryBytes nm dat).length = 32 + pad4 (nm.length + 1) + pad4 dat.length := by
  have h1 := pad4_ge (nm.length + 1)
  have h2 := pad4_ge dat.length
  simp [entryBytes, zeros_length, List.length_append, le32_length]
  omega

theorem encodeEntries_cons (e : Buf × Buf) (fs : List (Buf × Buf)) :
    encodeEntries (e :: fs) = entryBytes e.1 e.2 ++ encodeEntries fs := by
  simp [encodeEntries]

theorem length_le_encodeEntries (fs : List (Buf × Buf)) :
    fs.length ≤ (encodeEntries fs).length := by
  induction fs with
  | nil => simp [encodeEntries]
  | cons e t ih =>
    rw [encodeEntries_cons]
    have h1 := pad4_ge (e.1.length + 1)
    have h2 := pad4_ge e.2.length
    have h3 := entryBytes_length e.1 e.2
    simp only [List.length_append, List.length_cons]
    omega

/-- One iteration of the reader loop positioned at the start of an encoded
entry with a NUL-free, u32-representable name: it decodes exactly that
entry and continues right behind it. -/
theorem resLoop_entry_step (pre nm dat E : Buf) (fuel : Nat) (acc : List RESEntry)
    (hnm : ∀ x ∈ nm, (x != 0) = true)
    (hn : nm.length + 20 < 4294967296) (hd : dat.length + 20 < 4294967296) :
    resLoop (pre ++ (entryBytes nm dat ++ E)) (fuel + 1) pre.length acc =
      resLoop (pre ++ (entryBytes nm dat ++ E)) fuel
        (pre.length + (entryBytes nm dat).length) (⟨nm, dat⟩ :: acc) := by
  have hple : nm.length + 1 ≤ pad4 (nm.length + 1) := pad4_ge _
  have hplt : pad4 (nm.length + 1) ≤ nm.length + 4 := pad4_le _
  have hdle : dat.length ≤ pad4 dat.length := pad4_ge _
  have hdlt : pad4 dat.length ≤ dat.length + 3 := pad4_le _
  have hoff : pre.length < (pre ++ (entryBytes nm dat ++ E)).length := by
    rw [List.length_append, List.length_append, entryBytes_length]
    omega
  have h0 : rdU32? (pre ++ (entryBytes nm dat ++ E)) pre.length = some 0x454D414E := by
    obtain ⟨R, hR⟩ : ∃ R, pre ++ (entryBytes nm dat ++ E) =
        pre ++ (le32 0x454D414E ++ R) :=
      ⟨_, by simp [entryBytes, List.append_assoc]; try rfl⟩
    rw [hR, rdU32?_at pre _ R pre.length rfl, Nat.mod_eq_of_lt (by norm_num)]
  have h1 : rdU32? (pre ++ (entryBytes nm dat ++ E)) (pre.length + 4) =
      some (nm.length + 1) := by
    obtain ⟨R, hR⟩ : ∃ R, pre ++ (entryBytes nm dat ++ E) =
        (pre ++ le32 0x454D414E) ++ (le32 (nm.length + 1) ++ R) :=
      ⟨_, by simp [entryBytes, List.append_assoc]; try rfl⟩
    rw [hR, rdU32?_at _ _ R _ (by simp [le32_length]),
      Nat.mod_eq_of_lt (by omega)]
  have h2 : rdU32? (pre ++ (entryBytes nm dat ++ E)) (pre.length + 8) = some 4 := by
    obtain ⟨R, hR⟩ : ∃ R, pre ++ (entryBytes nm dat ++ E) =
        (pre ++ le32 0x454D414E ++ le32 (nm.length + 1)) ++ (le32 4 ++ R) :=
      ⟨_, by simp [entryBytes, List.append_assoc]; try rfl⟩
    rw [hR, rdU32?_at _ _ R _ (by simp [le32_length]),
      Nat.mod_eq_of_lt (by norm_num)]
  have h3 : rdU32? (pre ++ (entryBytes nm dat ++ E)) (pre.length + 12) =
      some (16 + pad4 (nm.length + 1)) := by
    obtain ⟨R, hR⟩ : ∃ R, pre ++ (entryBytes nm dat ++ E) =
        (pre ++ le32 0x454D414E ++ le32 (nm.length + 1) ++ le32 4) ++
          (le32 (16 + pad4 (nm.length + 1)) ++ R) :=
      ⟨_, by simp [entryBytes, List.append_assoc]; try rfl⟩
    rw [hR, rdU32?_at _ _ R _ (by simp [le32_length]),
      Nat.mod_eq_of_lt (by omega)]
  have hname : ((pre ++ (entryBytes nm dat ++ E)).drop (pre.length + 16)).take
      (nm.length + 1) = nm ++ [0] := by
    obtain ⟨R, hR⟩ : ∃ R, pre ++ (entryBytes nm dat ++ E) =
        (pre ++ le32 0x454D414E ++ le32 (nm.length + 1) ++ le32 4 ++
          le32 (16 + pad4 (nm.length + 1))) ++ ((nm ++ [0]) ++ R) :=
      ⟨_, by simp [entryBytes, List.append_assoc]; try rfl⟩
    rw [hR, drop_at _ _ _ (by simp [le32_length]),
      take_at (nm ++ [0]) R _ (by simp)]
  have h4 : rdU32? (pre ++ (entryBytes nm dat ++ E))
      (pre.length + (16 + pad4 (nm.length + 1))) = some 0x59444F42 := by
    obtain ⟨R, hR⟩ : ∃ R, pre ++ (entryBytes nm dat ++ E) =
        (pre ++ le32 0x454D414E ++ le32 (nm.length + 1) ++ le32 4 ++
          le32 (16 + pad4 (nm.length + 1)) ++
          (nm ++ [0] ++ zeros (pad4 (nm.length + 1) - (nm.length + 1)))) ++
          (le32 0x59444F42 ++ R) :=
      ⟨_, by simp [entryBytes, List.append_assoc]; try rfl⟩
    rw [hR, rdU32?_at _ _ R _ (by simp [le32_length, zeros_length]; omega),
      Nat.mod_eq_of_lt (by norm_num)]
  have h5 : rdU32? (pre ++ (entryBytes nm dat ++ E))
      (pre.length + (16 + pad4 (nm.length + 1)) + 4) = some dat.length := by
    obtain ⟨R, hR⟩ : ∃ R, pre ++ (entryBytes nm dat ++ E) =
        (pre ++ le32 0x454D414E ++ le32 (nm.length + 1) ++ le32 4 ++
          le32 (16 + pad4 (nm.length + 1)) ++
          (nm ++ [0] ++ zeros (pad4 (nm.length + 1) - (nm.length + 1))) ++
          le32 0x59444F42) ++ (le32 dat.length ++ R) :=
      ⟨_, by simp [entryBytes, List.append_assoc]; try rfl⟩
    rw [hR, rdU32?_at _ _ R _ (by simp [le32_length, zeros_length]; omega),
      Nat.mod_eq_of_lt (by omega)]
  have h6 : rdU32? (pre ++ (entryBytes nm dat ++ E))
      (pre.length + (16 + pad4 (nm.length + 1)) + 8) = some 4 := by
    obtain ⟨R, hR⟩ : ∃ R, pre ++ (entryBytes nm dat ++ E) =
        (pre ++ le32 0x454D414E ++ le32 (nm.length + 1) ++ le32 4 ++
          le32 (16 + pad4 (nm.length + 1)) ++
          (nm ++ [0] ++ zeros (pad4 (nm.length + 1) - (nm.length + 1))) ++
          le32 0x59444F42 ++ le32 dat.length) ++ (le32 4 ++ R) :=
      ⟨_, by simp [entryBytes, List.append_assoc]; try rfl⟩
    rw [hR, rdU32?_at _ _ R _ (by simp [le32_length, zeros_length]; omega),
      Nat.mod_eq_of_lt (by norm_num)]
  have h7 : rdU32? (pre ++ (entryBytes nm dat ++ E))
      (pre.length + (16 + pad4 (nm.length + 1)) + 12) =
      some (16 + pad4 dat.length) := by
    obtain ⟨R, hR⟩ : ∃ R, pre ++ (entryBytes nm dat ++ E) =
        (pre ++ le32 0x454D414E ++ le32 (nm.length + 1) ++ le32 4 ++
          le32 (16 + pad4 (nm.length + 1)) ++
          (nm ++ [0] ++ zeros (pad4 (nm.length + 1) - (nm.length + 1))) ++
          le32 0x59444F42 ++ le32 dat.length ++ le32 4) ++
          (le32 (16 + pad4 dat.length) ++ R) :=
      ⟨_, by simp [entryBytes, List.append_assoc]; try rfl⟩
    rw [hR, rdU32?_at _ _ R _ (by simp [le32_length, zeros_length]; omega),
      Nat.mod_eq_of_lt (by omega)]
  have hdata : ((pre ++ (entryBytes nm dat ++ E)).drop
      (pre.length + (16 + pad4 (nm.length + 1)) + 16)).take dat.length = dat := by
    obtain ⟨R, hR⟩ : ∃ R, pre ++ (entryBytes nm dat ++ E) =
        (pre ++ le32 0x454D414E ++ le32 (nm.length + 1) ++ le32 4 ++
          le32 (16 + pad4 (nm.length + 1)) ++
          (nm ++ [0] ++ zeros (pad4 (nm.length + 1) - (nm.length + 1))) ++
          le32 0x59444F42 ++ le32 dat.length ++ le32 4 ++
          le32 (16 + pad4 dat.length)) ++ (dat ++ R) :=
      ⟨_, by simp [entryBytes, List.append_assoc]; try rfl⟩
    rw [hR, drop_at _ _ _ (by simp [le32_length, zeros_length]; omega),
      take_at dat R _ rfl]
  conv_lhs => rw [resLoop]
  rw [if_pos hoff, h0]
  dsimp only
  rw [if_neg (by decide : ¬ (0x454D414E : Nat) ≠ 0x454D414E)]
  rw [h1, h2, h3]
  dsimp only
  rw [h4]
  dsimp only
  rw [if_neg (by decide : ¬ (0x59444F42 : Nat) ≠ 0x59444F42)]
  rw [h5, h6, h7]
  dsimp only
  rw [hname, List.filter_append, List.filter_eq_self.mpr hnm, hdata]
  have hz : List.filter (fun x => x != 0) [0] = [] := rfl
  rw [hz, List.append_nil]
  have heq : pre.length + 16 + pad4 (nm.length + 1) + (16 + pad4 dat.length) =
      pre.length + (entryBytes nm dat).length := by
    rw [entryBytes_length]; omega
  rw [heq]

/-- The reader loop decodes a sequence of encoded entries placed after any
prefix, in order, appending them to the accumulator. -/
theorem resLoop_decodes_entries (fs : List (Buf × Buf)) :
    ∀ (pre : Buf) (acc : List RESEntry) (fuel : Nat),
      fs.length ≤ fuel →
      (∀ e ∈ fs, (∀ x ∈ e.1, (x != 0) = true) ∧ e.1.length + 20 < 4294967296 ∧
        e.2.length + 20 < 4294967296) →
      resLoop (pre ++ encodeEntries fs) fuel pre.length acc =
        acc.reverse ++ fs.map (fun e => (⟨e.1, e.2⟩ : RESEntry)) := by
  induction fs with
  | nil =>
    intro pre acc fuel _ _
    cases fuel with
    | zero => simp [resLoop, encodeEntries]
    | succ n => simp [resLoop, encodeEntries]
  | cons e t ih =>
    intro pre acc fuel hfuel hents
    rcases fuel with _ | fu
    · simp at hfuel
    have he := hents e (by simp)
    have ht : ∀ x ∈ t, (∀ y ∈ x.1, (y != 0) = true) ∧ x.1.length + 20 < 4294967296 ∧
        x.2.length + 20 < 4294967296 := fun x hx => hents x (by simp [hx])
    rw [encodeEntries_cons]
    rw [resLoop_entry_step pre e.1 e.2 (encodeEntries t) fu acc he.1 he.2.1 he.2.2]
    have hassoc : pre ++ (entryBytes e.1 e.2 ++ encodeEntries t) =
        (pre ++ entryBytes e.1 e.2) ++ encodeEntries t := by
      rw [List.append_assoc]
    have hlen : pre.length + (entryBytes e.1 e.2).length =
        (pre ++ entryBytes e.1 e.2).length := by simp
    rw [hassoc, hlen,
      ih (pre ++ entryBytes e.1 e.2) (⟨e.1, e.2⟩ :: acc) fu (by simp at hfuel; omega) ht]
    simp

theorem normalizeName_nul_free (n : Buf) (h : ∀ x ∈ n, (x != 0) = true) :
    ∀ x ∈ normalizeName n, (x != 0) = true := by
  unfold normalizeName
  split
  · exact h
  · intro x hx
    rcases List.mem_append.mp hx with hx | hx
    · have : ∀ y ∈ localTagBytes, (y != 0) = true := by decide
      exact this x hx
    · exact h x hx

theorem normalizeName_length (n : Buf) : (normalizeName n).length ≤ n.length + 6 := by
  unfold normalizeName
  split
  · omega
  · simp [localTagBytes]

set_option maxHeartbeats 2000000 in
/-- C6, amended — `ArchiveCodec.decode ∘ ArchiveCodec.encode` returns the
entries in their original order, each with its `LOCAL:`-normalized name
and byte-identical data, provided no name contains a NUL byte (the reader
strips NULs from decoded names: see the counterexample) and the name and
data lengths are representable in the format's u32 fields. -/
theorem archive_roundtrip_on_nul_free_names (entries : List (Buf × Buf))
    (h : ∀ e ∈ entries, (∀ x ∈ e.1, (x != 0) = true) ∧
      e.1.length + 26 < 4294967296 ∧ e.2.length + 20 < 4294967296) :
    (parseRES (encodeArchive entries)).map (fun a => a.files) =
      .ok (entries.map fun e => (⟨normalizeName e.1, e.2⟩ : RESEntry)) := by
  have hfs : ∀ e ∈ entries.map (fun e => (normalizeName e.1, e.2)),
      (∀ x ∈ e.1, (x != 0) = true) ∧ e.1.length + 20 < 4294967296 ∧
        e.2.length + 20 < 4294967296 := by
    intro e' he'
    rcases List.mem_map.mp he' with ⟨e, he, rfl⟩
    dsimp only
    have h1 := (h e he).1
    have h2 := (h e he).2.1
    have h3 := (h e he).2.2
    refine ⟨normalizeName_nul_free e.1 h1, ?_, h3⟩
    have h4 := normalizeName_length e.1
    omega
  unfold encodeArchive
  have r0 : rdU32? (buildRES (entries.map fun e => (normalizeName e.1, e.2))) 0 =
      some 0x46464C49 := by
    obtain ⟨R, hR⟩ : ∃ R, buildRES (entries.map fun e => (normalizeName e.1, e.2)) =
        le32 0x46464C49 ++ R :=
      ⟨_, by simp [buildRES, List.append_assoc]; try rfl⟩
    rw [hR, rdU32?_zero, Nat.mod_eq_of_lt (by norm_num)]
  have r1 : rdU32? (buildRES (entries.map fun e => (normalizeName e.1, e.2))) 4 =
      some ((20 + (encodeEntries (entries.map fun e => (normalizeName e.1, e.2))).length) %
        4294967296) := by
    obtain ⟨R, hR⟩ : ∃ R, buildRES (entries.map fun e => (normalizeName e.1, e.2)) =
        (le32 0x46464C49) ++
          (le32 (20 + (encodeEntries (entries.map fun e =>
            (normalizeName e.1, e.2))).length) ++ R) :=
      ⟨_, by simp [buildRES, List.append_assoc]; try rfl⟩
    rw [hR, rdU32?_at (le32 0x46464C49) _ R 4 (by simp [le32_length])]
  have r2 : rdU32? (buildRES (entries.map fun e => (normalizeName e.1, e.2))) 8 =
      some 4 := by
    obtain ⟨R, hR⟩ : ∃ R, buildRES (entries.map fun e => (normalizeName e.1, e.2)) =
        (le32 0x46464C49 ++
          le32 (20 + (encodeEntries (entries.map fun e =>
            (normalizeName e.1, e.2))).length)) ++ (le32 4 ++ R) :=
      ⟨_, by simp [buildRES, List.append_assoc]; try rfl⟩
    rw [hR, rdU32?_at _ 4 R 8 (by simp [le32_length]), Nat.mod_eq_of_lt (by norm_num)]
  have r3 : rdU32? (buildRES (entries.map fun e => (normalizeName e.1, e.2))) 12 =
      some 0 := by
    obtain ⟨R, hR⟩ : ∃ R, buildRES (entries.map fun e => (normalizeName e.1, e.2)) =
        (le32 0x46464C49 ++
          le32 (20 + (encodeEntries (entries.map fun e =>
            (normalizeName e.1, e.2))).length) ++ le32 4) ++ (le32 0 ++ R) :=
      ⟨_, by simp [buildRES, List.append_assoc]; try rfl⟩
    rw [hR, rdU32?_at _ 0 R 12 (by simp [le32_length]), Nat.mod_eq_of_lt (by norm_num)]
  have r4 : rdU32? (buildRES (entries.map fun e => (normalizeName e.1, e.2))) 16 =
      some 0x53455249 := by
    obtain ⟨R, hR⟩ : ∃ R, buildRES (entries.map fun e => (normalizeName e.1, e.2)) =
        (le32 0x46464C49 ++
          le32 (20 + (encodeEntries (entries.map fun e =>
            (normalizeName e.1, e.2))).length) ++ le32 4 ++ le32 0) ++
          (le32 0x53455249 ++ R) :=
      ⟨_, by simp [buildRES, List.append_assoc]; try rfl⟩
    rw [hR, rdU32?_at _ 0x53455249 R 16 (by simp [le32_length]),
      Nat.mod_eq_of_lt (by norm_num)]
  have hshape : buildRES (entries.map fun e => (normalizeName e.1, e.2)) =
      (le32 0x46464C49 ++
        le32 (20 + (encodeEntries (entries.map fun e =>
          (normalizeName e.1, e.2))).length) ++ le32 4 ++ le32 0 ++
        le32 0x53455249) ++
        encodeEntries (entries.map fun e => (normalizeName e.1, e.2)) := by
    simp [buildRES, List.append_assoc]
  have hfuel : (entries.map fun e => (normalizeName e.1, e.2)).length ≤
      (buildRES (entries.map fun e => (normalizeName e.1, e.2))).length := by
    have h5 := length_le_encodeEntries (entries.map fun e => (normalizeName e.1, e.2))
    rw [hshape]
    simp only [List.length_append, le32_length, List.length_map] at h5 ⊢
    omega
  have hloop : resLoop (buildRES (entries.map fun e => (normalizeName e.1, e.2)))
      (buildRES (entries.map fun e => (normalizeName e.1, e.2))).length 20 [] =
      (entries.map fun e => (normalizeName e.1, e.2)).map
        (fun e => (⟨e.1, e.2⟩ : RESEntry)) := by
    obtain ⟨P, hP, hPlen⟩ : ∃ P : Buf,
        buildRES (entries.map fun e => (normalizeName e.1, e.2)) =
          P ++ encodeEntries (entries.map fun e => (normalizeName e.1, e.2)) ∧
        P.length = 20 :=
      ⟨_, hshape, by simp [le32_length]⟩
    have h6 := resLoop_decodes_entries (entries.map fun e => (normalizeName e.1, e.2))
      P [] (buildRES (entries.map fun e => (normalizeName e.1, e.2))).length hfuel hfs
    rw [← hP, hPlen] at h6
    simpa using h6
  unfold parseRES
  rw [r0]
  dsimp only
  rw [if_neg (by decide : ¬ (0x46464C49 : Nat) ≠ 0x46464C49)]
  rw [r1, r2, r3, r4]
  dsimp only
  rw [if_neg (by decide : ¬ (0x53455249 : Nat) ≠ 0x53455249)]
  dsimp only [Except.map]
  rw [hloop]
  simp [List.map_map, Function.comp]

/-- C6, witness — the round trip applied to one concrete entry
(`"MEF1"` with a 5-byte payload). -/
theorem archive_roundtrip_on_nul_free_names_witness :
    (parseRES (encodeArchive [([77, 69, 70, 49], [1, 2, 3, 4, 5])])).map
        (fun a => a.files) =
      .ok [⟨normalizeName [77, 69, 70, 49], [1, 2, 3, 4, 5]⟩] :=
  archive_roundtrip_on_nul_free_names [([77, 69, 70, 49], [1, 2, 3, 4, 5])]
    (by decide)

/-! ## C1, amended: why the minimal round trip fails in general -/

theorem stepChunk_unknown_tag (b : Buf) (s : AsmState) (c : MEFChunk)
    (h1 : c.name ≠ tagXTRV) (h2 : c.name ≠ tagXTVC) (h3 : c.name ≠ tagXTVS)
    (h4 : c.name ≠ tagECAF) (h5 : c.name ≠ tagECFC) (h6 : c.name ≠ tagCAFS) :
    stepChunk b s c = s := by
  unfold stepChunk
  by_cases h0 : (b.length : Int) < ((c.offset + 16 : Nat) : Int) + c.size
  · rw [if_pos h0]
  · rw [if_neg h0, if_neg h1, if_neg h2, if_neg h3, if_neg h4, if_neg h5, if_neg h6]

theorem createXTRVChunk_shape (x y z : Nat) (vs ns : List (Nat × Nat × Nat))
    (us : List (Nat × Nat)) :
    ∃ (cs : Nat) (T : Buf),
      createXTRVChunk ((x, y, z) :: vs) ns us =
        tagXTRV ++ (le32 cs ++ (le32 0 ++ (le32 0 ++
          (le32 x ++ (le32 y ++ (le32 z ++ T)))))) := by
  exact ⟨_, _, by
    simp [createXTRVChunk, chunkHeader, xtrvBody, f32triple, List.append_assoc]
    try rfl⟩

theorem createECAFChunk_length_ge (f0 : Nat × Nat × Nat) (fs : List (Nat × Nat × Nat)) :
    16 ≤ (createECAFChunk (f0 :: fs)).length := by
  simp [createECAFChunk, chunkHeader, le32_length, le16_length, List.length_append,
    tagECAF]
  omega

theorem toI32_eq_zero (z : Nat) (hz : z % 4294967296 = 0) : toI32 z = 0 := by
  unfold toI32
  rw [hz]
  simp

/-- C1, amended — the encoder/decoder pair does not round-trip: the decoder
skips a 12-byte reserved block after the 8-byte file header that the
minimal encoder never emits, and the encoder leaves every chunk's `next`
link 0, so the chunk walk reads its first pseudo-header inside the vertex
chunk (its name bytes are the vertex chunk's zero `next` field).  For every
mesh with at least one vertex and at least one triangle whose first
vertex's z bit pattern is 0 mod 2^32 (for example `0.0`), the walk then
stops at that one garbage chunk — or, if the declared size reads as ≤ 20,
at no chunk — and `parse` fails with the no-valid-meshes error. -/
theorem encodeMinimal_parse_fails (x y z : Nat) (vs ns : List (Nat × Nat × Nat))
    (us : List (Nat × Nat)) (f0 : Nat × Nat × Nat) (fs : List (Nat × Nat × Nat))
    (B : Buf) (hz : z % 4294967296 = 0)
    (hB : convertToMEF ((x, y, z) :: vs) ns us (f0 :: fs) = .ok B) :
    parseMEFTop B = .error .noValidMeshes := by
  unfold convertToMEF at hB
  rw [if_neg (by simp : ¬ ((x, y, z) :: vs = [])),
    if_neg (by simp : ¬ (f0 :: fs = []))] at hB
  injection hB with hBeq
  subst hBeq
  obtain ⟨cs, T, hX⟩ := createXTRVChunk_shape x y z vs ns us
  have hElen := createECAFChunk_length_ge f0 fs
  generalize 8 + (createXTRVChunk ((x, y, z) :: vs) ns us).length +
    (createECAFChunk (f0 :: fs)).length = tot
  rw [hX]
  simp only [List.append_assoc]
  set B' := ilffTag ++ (le32 tot ++ (tagXTRV ++ (le32 cs ++ (le32 0 ++ (le32 0 ++
    (le32 x ++ (le32 y ++ (le32 z ++ (T ++ createECAFChunk (f0 :: fs)))))))))) with hB'
  have hBlen : 52 ≤ B'.length := by
    rw [hB']
    simp [ilffTag, tagXTRV, le32_length, List.length_append]
    omega
  have hname : (B'.drop 20).take 4 = le32 0 := by
    obtain ⟨R, hR⟩ : ∃ R, B' =
        (ilffTag ++ le32 tot ++ tagXTRV ++ le32 cs ++ le32 0) ++ (le32 0 ++ R) :=
      ⟨_, by rw [hB']; simp [List.append_assoc]; try rfl⟩
    rw [hR, drop_at _ _ _ (by simp [ilffTag, tagXTRV, le32_length]),
      take_at (le32 0) R 4 rfl]
  have h24 : rdI32? B' 24 = some (toI32 x) := by
    obtain ⟨R, hR⟩ : ∃ R, B' =
        (ilffTag ++ le32 tot ++ tagXTRV ++ le32 cs ++ le32 0 ++ le32 0) ++
          (le32 x ++ R) :=
      ⟨_, by rw [hB']; simp [List.append_assoc]; try rfl⟩
    rw [hR, rdI32?_at _ x R 24 (by simp [ilffTag, tagXTRV, le32_length])]
  have h28 : rdI32? B' 28 = some (toI32 y) := by
    obtain ⟨R, hR⟩ : ∃ R, B' =
        (ilffTag ++ le32 tot ++ tagXTRV ++ le32 cs ++ le32 0 ++ le32 0 ++ le32 x) ++
          (le32 y ++ R) :=
      ⟨_, by rw [hB']; simp [List.append_assoc]; try rfl⟩
    rw [hR, rdI32?_at _ y R 28 (by simp [ilffTag, tagXTRV, le32_length])]
  have h32 : rdI32? B' 32 = some (toI32 z) := by
    obtain ⟨R, hR⟩ : ∃ R, B' =
        (ilffTag ++ le32 tot ++ tagXTRV ++ le32 cs ++ le32 0 ++ le32 0 ++ le32 x ++
          le32 y) ++ (le32 z ++ R) :=
      ⟨_, by rw [hB']; simp [List.append_assoc]; try rfl⟩
    rw [hR, rdI32?_at _ z R 32 (by simp [ilffTag, tagXTRV, le32_length])]
  have htake : B'.take 4 = ilffTag := by
    obtain ⟨R, hR⟩ : ∃ R, B' = ilffTag ++ R := ⟨_, by rw [hB']⟩
    rw [hR, take_at ilffTag R 4 rfl]
  obtain ⟨fu, hfu⟩ : ∃ fu, B'.length + 2 = fu + 1 := ⟨B'.length + 1, rfl⟩
  have hwalk : ∀ r, chunkWalk B' (toI32 (rdU32 B' 4)) (B'.length + 2) 20 [] = r →
      (r = .ok [] ∨
       r = .ok [⟨le32 0, 20, toI32 x, toI32 z⟩]) := by
    intro r hr
    rw [hfu] at hr
    rw [chunkWalk] at hr
    by_cases hc : ((20 : Nat) : Int) < toI32 (rdU32 B' 4) ∧ 20 < B'.length
    · rw [if_pos hc, if_neg (by omega : ¬ B'.length < 20 + 16)] at hr
      rw [show (20 : Nat) + 4 = 24 from rfl, show (20 : Nat) + 8 = 28 from rfl,
        show (20 : Nat) + 12 = 32 from rfl] at hr
      rw [h24, h28, h32] at hr
      dsimp only at hr
      rw [if_pos (toI32_eq_zero z hz)] at hr
      rw [hname] at hr
      simp only [List.reverse_cons, List.reverse_nil, List.nil_append] at hr
      exact .inr hr.symm
    · rw [if_neg hc] at hr
      exact .inl hr.symm
  unfold parseMEFTop parseMEF
  rw [if_neg (by omega : ¬ B'.length < 8),
    if_neg (by rw [htake]; simp : ¬ B'.take 4 ≠ ilffTag)]
  rcases hwalk _ rfl with hw | hw <;> rw [hw]
  · dsimp only
    exact if_pos rfl
  · dsimp only
    rw [List.foldl_cons, List.foldl_nil,
      stepChunk_unknown_tag B' initAsm _
        (show (le32 0 : Buf) ≠ tagXTRV by decide)
        (show (le32 0 : Buf) ≠ tagXTVC by decide)
        (show (le32 0 : Buf) ≠ tagXTVS by decide)
        (show (le32 0 : Buf) ≠ tagECAF by decide)
        (show (le32 0 : Buf) ≠ tagECFC by decide)
        (show (le32 0 : Buf) ≠ tagCAFS by decide)]
    exact if_pos rfl

/-- C1, witness — the amended theorem applied to the one-vertex,
one-triangle mesh with all-zero vertex bits. -/
theorem encodeMinimal_parse_fails_witness :
    parseMEFTop ((convertToMEF [(0, 0, 0)] [] [] [(0, 0, 0)]).toOption.getD []) =
      .error .noValidMeshes := by
  have h : convertToMEF [(0, 0, 0)] [] [] [(0, 0, 0)] =
      .ok ((convertToMEF [(0, 0, 0)] [] [] [(0, 0, 0)]).toOption.getD []) := by
    decide
  exact encodeMinimal_parse_fails 0 0 0 [] [] [] (0, 0, 0) [] _ (by decide) h

end MEV
